import Mathlib

/-!
Verification of the FTVA lab-data cleaning pipeline.

This file gives a shallow embedding of the data-cleaning management commands
of the `ftva_lab_data` Django application:

* `clean_imported_data.py` (passes A..G over the imported sheet rows),
* `clean_tape_info.py` (the tape-identifier and vault-location recognizer),
* `extract_inventory_numbers.py` (inventory-number extraction),
* `import_status_info.py` (the status-info substring classifier),

and proves, or refutes on concrete inputs, the claims of the natural-language
specification about them.

Strings are modelled as lists of characters (`Str`).  Python regular
expressions in the source are simple deterministic patterns; each is
translated into an explicit matcher on `Str`, with the correspondence
documented at each definition.  Character classes are modelled at ASCII
granularity: Python `\d`, `[A-Z]`, `[0-9]`, `str.lower()` and `str.strip()`
operate on Unicode, but all data and patterns in this repository are ASCII,
and the embedding uses the ASCII meaning throughout.

The Django record store is modelled as a `List Rec` in ascending-identifier
order: every pass in the source iterates `order_by("id")`, and deletions
preserve relative order, so list order faithfully models identifier order.
-/

/-- Strings of the embedding: Python `str` as a list of characters. -/
abbrev Str := List Char

/-- Python whitespace for `str.strip()` and the regex class matched by a
whitespace escape: space, tab, newline, carriage return, vertical tab and
form feed (ASCII fragment). -/
def pyIsSpace (c : Char) : Bool :=
  c = ' ' || c = '\t' || c = '\n' || c = '\r' || c = '\x0b' || c = '\x0c'

/-- Python `str.strip()` with no arguments: remove leading and trailing
whitespace. -/
def pyStrip (s : Str) : Str :=
  ((s.dropWhile pyIsSpace).reverse.dropWhile pyIsSpace).reverse

/-- Match a literal pattern at the front of the input: `dropLit pat s`
returns the rest of `s` after the literal `pat`, or `none` if `s` does not
start with `pat`. -/
def dropLit : Str → Str → Option Str
  | [], s => some s
  | _ :: _, [] => none
  | c :: p, d :: s => if c = d then dropLit p s else none

/-- One row of the imported Google Sheet: the `SheetImport` model of
`models.py`.

The model declares, in order, the string fields `hard_drive_name`,
`carrier_a`, `carrier_a_location`, `carrier_b`, `carrier_b_location`,
`hard_drive_barcode_id`, `file_folder_name`, `sub_folder_name`, `file_name`,
`inventory_number`, and then 38 further technical `CharField`s
(`source_inventory_number` through `notes`), followed by the relational
fields `status` (many-to-many to `ItemStatus`) and `assigned_user`, and
`date_of_ingest`.

The first ten string fields are the ones the cleaning passes read or write;
they appear here by name.  The remaining 38 string fields are never
individually touched by any cleaning command and are kept, in declaration
order, as the list `otherFields`, so that the concatenation used by
`_get_combined_field_data` can be formed faithfully.  `status` holds the
names of the record's `ItemStatus` tags; the relational fields excluded by
`_get_combined_field_data` (`id`, `assigned_user`, `status`,
`date_of_ingest`) do not contribute to any string concatenation. -/
structure Rec where
  id : Nat := 0
  hard_drive_name : Str := []
  carrier_a : Str := []
  carrier_a_location : Str := []
  carrier_b : Str := []
  carrier_b_location : Str := []
  hard_drive_barcode_id : Str := []
  file_folder_name : Str := []
  sub_folder_name : Str := []
  file_name : Str := []
  inventory_number : Str := []
  otherFields : List Str := []
  status : List Str := []
deriving DecidableEq, Repr, Inhabited

/-- `_is_header_record` of `clean_imported_data.py`: the record's
`file_folder_name` is exactly the literal header text. -/
def is_header_record (r : Rec) : Bool :=
  r.file_folder_name = "File Folder Name".data

/-- `_get_combined_field_data` of `clean_imported_data.py`: concatenate every
string field of the record, in model declaration order, excluding the
relational and system fields (`id`, `assigned_user`, `status`,
`date_of_ingest`, and the names of fields that do not exist on this model),
then strip leading and trailing whitespace. -/
def get_combined_field_data (r : Rec) : Str :=
  pyStrip (r.hard_drive_name ++ r.carrier_a ++ r.carrier_a_location ++
    r.carrier_b ++ r.carrier_b_location ++ r.hard_drive_barcode_id ++
    r.file_folder_name ++ r.sub_folder_name ++ r.file_name ++
    r.inventory_number ++ r.otherFields.flatten)

/-- `_is_empty_record` of `clean_imported_data.py`. -/
def is_empty_record (r : Rec) : Bool :=
  get_combined_field_data r = []

/-- `_has_file_info` of `clean_imported_data.py`: the concatenation of the
three path fields is non-empty. -/
def has_file_info (r : Rec) : Bool :=
  r.file_folder_name ++ r.sub_folder_name ++ r.file_name ≠ []

/-- Pass A, `delete_empty_records`: delete each record all of whose string
fields are blank; return the surviving records and the deletion count. -/
def delete_empty_records : List Rec → List Rec × Nat
  | [] => ([], 0)
  | r :: rs =>
    let p := delete_empty_records rs
    if is_empty_record r then (p.1, p.2 + 1) else (r :: p.1, p.2)

/-- The device-marker test of pass B: Python
`re.match("Digital[ ]?Lab [0-9]", s)`, a prefix match of the literal
`Digital`, an optional space, the literal `Lab `, and one ASCII digit.
Dropping exactly one leading space when present is complete: if the rest
starts with a space, the zero-space alternative would require `Lab ` to
begin with a space, which it does not, so no backtracking case is lost. -/
def isDriveName (s : Str) : Bool :=
  match dropLit "Digital".data s with
  | none => false
  | some rest =>
    let rest' := if rest.head? = some ' ' then rest.tail else rest
    match dropLit "Lab ".data rest' with
    | some (c :: _) => c.isDigit
    | _ => false

/-- The scan of pass B, `set_hard_drive_names`, carrying
`current_drive_name` (Python `None` or a string; the Python truthiness test
`if current_drive_name:` is false for both `None` and the empty string, so
only `some` of a non-empty string triggers an update). -/
def set_hard_drive_names_aux (cur : Option Str) : List Rec → List Rec × Nat
  | [] => ([], 0)
  | r :: rs =>
    if is_empty_record r then
      let p := set_hard_drive_names_aux cur rs
      (r :: p.1, p.2)
    else if isDriveName r.hard_drive_name then
      let p := set_hard_drive_names_aux (some r.hard_drive_name) rs
      (r :: p.1, p.2)
    else if is_header_record r then
      let p := set_hard_drive_names_aux none rs
      (r :: p.1, p.2)
    else
      match cur with
      | some (c :: cs) =>
        let p := set_hard_drive_names_aux (some (c :: cs)) rs
        ({ r with hard_drive_name := c :: cs } :: p.1, p.2 + 1)
      | _ =>
        let p := set_hard_drive_names_aux cur rs
        (r :: p.1, p.2)

/-- Pass B, `set_hard_drive_names`. -/
def set_hard_drive_names (l : List Rec) : List Rec × Nat :=
  set_hard_drive_names_aux none l

/-- The scan of pass C, `set_file_folder_names`, carrying
`current_file_folder_name`. -/
def set_file_folder_names_aux (cur : Option Str) : List Rec → List Rec × Nat
  | [] => ([], 0)
  | r :: rs =>
    if is_empty_record r then
      let p := set_file_folder_names_aux cur rs
      (r :: p.1, p.2)
    else if is_header_record r then
      let p := set_file_folder_names_aux none rs
      (r :: p.1, p.2)
    else if r.file_folder_name ≠ [] then
      let p := set_file_folder_names_aux (some r.file_folder_name) rs
      (r :: p.1, p.2)
    else
      match cur with
      | some (c :: cs) =>
        if has_file_info r then
          let p := set_file_folder_names_aux (some (c :: cs)) rs
          ({ r with file_folder_name := c :: cs } :: p.1, p.2 + 1)
        else
          let p := set_file_folder_names_aux (some (c :: cs)) rs
          (r :: p.1, p.2)
      | _ =>
        let p := set_file_folder_names_aux cur rs
        (r :: p.1, p.2)

/-- Pass C, `set_file_folder_names`. -/
def set_file_folder_names (l : List Rec) : List Rec × Nat :=
  set_file_folder_names_aux none l

/-- The record-selection test of pass D: the source iterates
`SheetImport.objects.filter(hard_drive_name="").exclude(carrier_a_location="Digital Lab")`;
records outside this query are passed over untouched and do not affect the
carried state. -/
def carrier_pass_visits (r : Rec) : Bool :=
  r.hard_drive_name = [] && r.carrier_a_location ≠ "Digital Lab".data

/-- The scan of pass D, `set_carrier_info`, carrying `prev_carrier_a` and
`prev_carrier_b` (initialized to empty strings by `_get_carrier_info(None)`).
Python `if carrier_a and carrier_b:` and `all((prev_carrier_a, prev_carrier_b))`
are non-emptiness tests. -/
def set_carrier_info_aux (prev_a prev_b : Str) : List Rec → List Rec × Nat
  | [] => ([], 0)
  | r :: rs =>
    if carrier_pass_visits r then
      if is_empty_record r then
        let p := set_carrier_info_aux prev_a prev_b rs
        (r :: p.1, p.2)
      else if is_header_record r then
        let p := set_carrier_info_aux prev_a prev_b rs
        (r :: p.1, p.2)
      else if r.carrier_a ≠ [] ∧ r.carrier_b ≠ [] then
        let p := set_carrier_info_aux r.carrier_a r.carrier_b rs
        (r :: p.1, p.2)
      else if prev_a ≠ [] ∧ prev_b ≠ [] ∧ has_file_info r then
        let r' := { r with
          carrier_a := if r.carrier_a ≠ [] then r.carrier_a else prev_a,
          carrier_b := if r.carrier_b ≠ [] then r.carrier_b else prev_b }
        let p := set_carrier_info_aux prev_a prev_b rs
        (r' :: p.1, p.2 + 1)
      else
        let p := set_carrier_info_aux prev_a prev_b rs
        (r :: p.1, p.2)
    else
      let p := set_carrier_info_aux prev_a prev_b rs
      (r :: p.1, p.2)

/-- Pass D, `set_carrier_info`. -/
def set_carrier_info (l : List Rec) : List Rec × Nat :=
  set_carrier_info_aux [] [] l

/-- Pass E, `delete_header_records`. -/
def delete_header_records : List Rec → List Rec × Nat
  | [] => ([], 0)
  | r :: rs =>
    let p := delete_header_records rs
    if is_header_record r then (p.1, p.2 + 1) else (r :: p.1, p.2)

/-- Pass F, `delete_hard_drive_only_records`: delete each record whose
combined field data equals its `hard_drive_name` field. -/
def delete_hard_drive_only_records : List Rec → List Rec × Nat
  | [] => ([], 0)
  | r :: rs =>
    let p := delete_hard_drive_only_records rs
    if get_combined_field_data r = r.hard_drive_name then (p.1, p.2 + 1)
    else (r :: p.1, p.2)

/-- Scan the tail of a bracketed group for the closing bracket: Python
`.*?\]` where the dot does not match a newline. -/
def bracket_close : Str → Bool
  | [] => false
  | ']' :: _ => true
  | '\n' :: _ => false
  | _ :: rest => bracket_close rest

/-- Python `re.search` of the inline-note pattern (an opening bracket, a
lazy run of non-newline characters, a closing bracket) somewhere in the
string. -/
def has_bracket_note : Str → Bool
  | [] => false
  | '[' :: rest => bracket_close rest || has_bracket_note rest
  | _ :: rest => has_bracket_note rest

/-- The query of pass G: the record has bracketed inline-note text in at
least one of the three path fields. -/
def matches_inline_note (r : Rec) : Bool :=
  has_bracket_note r.file_folder_name || has_bracket_note r.sub_folder_name ||
    has_bracket_note r.file_name

/-- Django many-to-many `add`: adding an already-present tag is a no-op. -/
def add_status (r : Rec) (s : Str) : Rec :=
  if s ∈ r.status then r else { r with status := r.status ++ [s] }

/-- Pass G, `set_status_for_records_with_inline_notes`.  The status catalog
is the set of `ItemStatus` names (`ItemStatus.status` is declared unique, so
membership decides whether `ItemStatus.objects.get` succeeds).  If the
required tag is absent the lookup raises, modelled as `Except.error`;
otherwise every record matching the inline-note query has the tag added and
the function returns the count of matching records (the source returns
`records.count()`, the size of the query result, whether or not a record
already carried the tag). -/
def set_status_for_records_with_inline_notes (catalog : List Str)
    (l : List Rec) : Except Unit (List Rec × Nat) :=
  if "Needs review".data ∈ catalog then
    .ok (l.map (fun r => if matches_inline_note r then
            add_status r "Needs review".data else r),
         (l.filter (fun r => matches_inline_note r)).length)
  else
    .error ()

/-- The per-pass change counts reported by the cleanup command. -/
structure PassCounts where
  a : Nat
  b : Nat
  c : Nat
  d : Nat
  e : Nat
  f : Nat
  g : Nat
deriving DecidableEq, Repr

/-- `Command.handle` of `clean_imported_data.py`: run passes A through G in
order and report each pass's count. -/
def clean_imported_data (catalog : List Str) (l : List Rec) :
    Except Unit (List Rec × PassCounts) :=
  let pa := delete_empty_records l
  let pb := set_hard_drive_names pa.1
  let pc := set_file_folder_names pb.1
  let pd := set_carrier_info pc.1
  let pe := delete_header_records pd.1
  let pf := delete_hard_drive_only_records pe.1
  match set_status_for_records_with_inline_notes catalog pf.1 with
  | .ok (lg, ng) => .ok (lg, ⟨pa.2, pb.2, pc.2, pd.2, pe.2, pf.2, ng⟩)
  | .error e => .error e

/-- Match exactly `n` characters of class `p` at the front of the input,
returning the rest. -/
def dropClass (p : Char → Bool) : Nat → Str → Option Str
  | 0, s => some s
  | _ + 1, [] => none
  | n + 1, c :: s => if p c then dropClass p n s else none

/-- Match one tape-id shape of `get_tape_info_parts`: `upp` uppercase ASCII
letters followed by `dig` ASCII digits, anchored at the start, returning the
matched identifier and the rest of the input. -/
def try_shape (upp dig : Nat) (s : Str) : Option (Str × Str) :=
  match (dropClass Char.isUpper upp s).bind (dropClass Char.isDigit dig) with
  | some rest => some (s.take (upp + dig), rest)
  | none => none

/-- The tape-id alternation of `clean_tape_info.py`, tried in source order:
six digits, three letters and three digits, four letters and two digits, one
letter and six digits.  At any position at most one alternative can match (a
digit or a letter is required at each discriminating index), so trying the
alternatives in order loses no match and no regex backtracking case. -/
def tape_id_split (s : Str) : Option (Str × Str) :=
  ((try_shape 0 6 s).orElse fun _ =>
    (try_shape 3 3 s).orElse fun _ =>
      (try_shape 4 2 s).orElse fun _ =>
        try_shape 1 6 s)

/-- The tail of the combined pattern of `get_tape_info_parts`, matched after
the tape id: a run of whitespace, the literal marker `(in vault)` or
`(to vault)`, a run of whitespace, and a vault location (`S217-01`, one
uppercase letter, a space or hyphen, two digits, one uppercase letter)
ending the input.  The greedy whitespace runs are exact: the marker starts
with a parenthesis and the location with `S`, neither of which is
whitespace.  Returns the vault-location capture group. -/
def vault_tail (rest : Str) : Option Str :=
  let r1 := rest.dropWhile pyIsSpace
  let afterMark :=
    match dropLit "(in vault)".data r1 with
    | some r => some r
    | none => dropLit "(to vault)".data r1
  match afterMark with
  | none => none
  | some r2 =>
    let r3 := r2.dropWhile pyIsSpace
    match dropLit "S217-01".data r3 with
    | some (c1 :: sep :: d1 :: d2 :: c2 :: restEnd) =>
      if c1.isUpper ∧ (sep = ' ' ∨ sep = '-') ∧ d1.isDigit ∧ d2.isDigit ∧
          c2.isUpper ∧ restEnd = [] then
        some ("S217-01".data ++ [c1, sep, d1, d2, c2])
      else none
    | _ => none

/-- `get_tape_info_parts` of `clean_tape_info.py`.  The input is stripped;
if the whole of it is a tape id, the result is the id alone; if a tape id is
followed by a full marker-and-vault-location tail, the result is the id and
the location; anything else yields `(none, none)`.  The source first tries
the standalone full-match pattern and then the combined pattern; since the
tape-id alternation is deterministic, splitting off the id once and then
examining the rest is equivalent. -/
def get_tape_info_parts (s : Str) : Option Str × Option Str :=
  let t := pyStrip s
  match tape_id_split t with
  | some (tid, rest) =>
    if rest = [] then (some tid, none)
    else
      match vault_tail rest with
      | some loc => (some tid, some loc)
      | none => (none, none)
  | none => (none, none)

/-- The two carrier slots that `clean_tape_info.py` processes. -/
inductive CarrierField
  | a
  | b
deriving DecidableEq, Repr

/-- Read the named carrier field. -/
def getCarrier : CarrierField → Rec → Str
  | .a, r => r.carrier_a
  | .b, r => r.carrier_b

/-- Write the named carrier field. -/
def setCarrier : CarrierField → Rec → Str → Rec
  | .a, r, v => { r with carrier_a := v }
  | .b, r, v => { r with carrier_b := v }

/-- Write the location field paired with the named carrier field. -/
def setCarrierLoc : CarrierField → Rec → Str → Rec
  | .a, r, v => { r with carrier_a_location := v }
  | .b, r, v => { r with carrier_b_location := v }

/-- Python `str.replace(" ", "-")`. -/
def replaceSpaceWithHyphen (s : Str) : Str :=
  s.map fun c => if c = ' ' then '-' else c

/-- `process_carrier_fields` of `clean_tape_info.py` for one carrier field.
The source iterates the records whose carrier field is non-empty; for each,
it parses the field with `get_tape_info_parts`.  When a tape id is found and
`update_records` is set, the carrier field is replaced by the id, the paired
location field is set to the vault location with spaces replaced by hyphens
when a location was found, and the record counts as changed.  Without
`update_records` nothing is written and nothing is counted (the counter is
incremented only inside the update branch); records without a tape id are
only reported, never modified. -/
def process_carrier_fields (f : CarrierField) (update_records : Bool) :
    List Rec → List Rec × Nat
  | [] => ([], 0)
  | r :: rs =>
    let p := process_carrier_fields f update_records rs
    if getCarrier f r = [] then (r :: p.1, p.2)
    else
      match get_tape_info_parts (getCarrier f r) with
      | (some (c :: cs), vloc) =>
        if update_records then
          let r1 := setCarrier f r (c :: cs)
          let r2 :=
            match vloc with
            | some (v :: vs) =>
              setCarrierLoc f r1 (replaceSpaceWithHyphen (v :: vs))
            | _ => r1
          (r2 :: p.1, p.2 + 1)
        else (r :: p.1, p.2)
      | _ => (r :: p.1, p.2)

/-- `Command.handle` of `clean_tape_info.py`: process `carrier_a`, then
`carrier_b` on the resulting store, reporting both counts.  `update_records`
false corresponds to the report-only invocation. -/
def clean_tape_info (update_records : Bool) (l : List Rec) :
    List Rec × Nat × Nat :=
  let p1 := process_carrier_fields .a update_records l
  let p2 := process_carrier_fields .b update_records p1.1
  (p2.1, p1.2, p2.2)

/-- The inventory-number prefixes of `compile_regex` in
`extract_inventory_numbers.py`, in source alternation order. -/
def inv_prefixes : List Str :=
  ["M".data, "T".data, "DVD".data, "FE".data, "HFA".data, "VA".data,
   "XFE".data, "XFF".data, "XVE".data]

/-- Match one of the inventory prefixes at the front of the input, trying
alternatives in source order.  The literals are pairwise incompatible at a
shared position (distinct first characters, and the three X-prefixes differ
within their three characters), so at most one can match and alternation
order induces no backtracking. -/
def inv_match_head (s : Str) : Option (Str × Str) :=
  inv_prefixes.findSome? fun p => (dropLit p s).map fun r => (p, r)

/-- Attempt the inventory-number pattern of `compile_regex` at the current
position: the previous character (if any) must not be an uppercase letter
(the lookbehind), then one prefix from the alternation, then a maximal run
of at least two ASCII digits, then optionally a single uppercase letter that
is not followed by another ASCII letter.  Returns the matched token and the
rest of the input. -/
def inv_match_at (prev : Option Char) (s : Str) : Option (Str × Str) :=
  if (match prev with | some c => c.isUpper | none => false) then none
  else
    match inv_match_head s with
    | none => none
    | some (p, r1) =>
      let digs := r1.takeWhile Char.isDigit
      let r2 := r1.dropWhile Char.isDigit
      if digs.length < 2 then none
      else
        match r2 with
        | c :: rest2 =>
          if c.isUpper && (match rest2 with
              | d :: _ => ! d.isAlpha
              | [] => true) then
            some (p ++ digs ++ [c], rest2)
          else some (p ++ digs, r2)
        | [] => some (p ++ digs, [])

/-- The scan of Python `re.findall`: try a match at each position from the
left; on success emit the token and continue after it (matches never
overlap), otherwise advance one character.  Fuel bounds the recursion by the
input length; every step consumes at least one character, so the initial
fuel `s.length` is never exhausted early. -/
def inv_scan : Nat → Option Char → Str → List Str
  | 0, _, _ => []
  | _, _, [] => []
  | fuel + 1, prev, c :: cs =>
    match inv_match_at prev (c :: cs) with
    | some (tok, rest) => tok :: inv_scan fuel tok.getLast? rest
    | none => inv_scan fuel (some c) cs

/-- `re.findall(compile_regex(), s)`: all non-overlapping inventory-number
matches in order of appearance. -/
def findall_inventory_numbers (s : Str) : List Str :=
  inv_scan s.length none s

/-- Python `list(dict.fromkeys(l))`: deduplicate, keeping the first
occurrence of each value in order. -/
def pyDedup : List Str → List Str
  | [] => []
  | x :: xs => x :: pyDedup (xs.filter (· ≠ x))
termination_by l => l.length
decreasing_by
  simp only [List.length_cons]
  exact Nat.lt_succ_of_le (List.length_filter_le _ _)

/-- `remove_false_positives` of `extract_inventory_numbers.py`: remove the
deny-listed values `T01` and `FE3018T`, in that order.  Python `list.remove`
deletes the first occurrence and is guarded by a membership test in the
source. -/
def remove_false_positives (l : List Str) : List Str :=
  let l1 := if "T01".data ∈ l then l.erase "T01".data else l
  if "FE3018T".data ∈ l1 then l1.erase "FE3018T".data else l1

/-- Python `"|".join`. -/
def joinPipe : List Str → Str
  | [] => []
  | [x] => x
  | x :: y :: xs => x ++ '|' :: joinPipe (y :: xs)

/-- `build_inventory_number_string` of `extract_inventory_numbers.py`. -/
def build_inventory_number_string (ms : List Str) : Str :=
  joinPipe (remove_false_positives (pyDedup ms))

/-- The concatenation `"/".join([file_folder_name, sub_folder_name,
file_name])` that inventory numbers are extracted from. -/
def record_path_string (r : Rec) : Str :=
  r.file_folder_name ++ '/' :: r.sub_folder_name ++ '/' :: r.file_name

/-- `extract_inventory_numbers` of `extract_inventory_numbers.py`: for each
record, find all pattern matches in its path string; when there is at least
one match and the built inventory string is non-empty, the record with its
new `inventory_number` joins the updated-records list; otherwise the record
contributes nothing. -/
def extract_inventory_numbers (records : List Rec) : List Rec :=
  records.filterMap fun r =>
    let ms := findall_inventory_numbers (record_path_string r)
    if ms = [] then none
    else
      let inv := build_inventory_number_string ms
      if inv = [] then none
      else some { r with inventory_number := inv }

/-- The per-record effect of a live run of the extraction command on a
selected record: the record with extraction applied when it yields a
non-empty inventory string, the record unchanged otherwise. -/
def extract_update (r : Rec) : Rec :=
  let ms := findall_inventory_numbers (record_path_string r)
  if ms = [] then r
  else
    let inv := build_inventory_number_string ms
    if inv = [] then r
    else { r with inventory_number := inv }

/-- Substring containment, Python `needle in hay` on strings: some suffix of
`hay` starts with `needle` (the empty needle is contained in anything). -/
def has_substring (needle : Str) : Str → Bool
  | [] => (dropLit needle []).isSome
  | c :: t => (dropLit needle (c :: t)).isSome || has_substring needle t

/-- ASCII lowering, Python `str.lower()` on the ASCII data of this
repository. -/
def lowerStr (s : Str) : Str :=
  s.map Char.toLower

/-- Django `inventory_number__icontains`: case-insensitive substring
containment. -/
def icontains (hay needle : Str) : Bool :=
  has_substring (lowerStr needle) (lowerStr hay)

/-- The selection of `get_records_without_inventory_numbers`: the
`inventory_number` field is the empty string or contains the substring
`invalid` case-insensitively. -/
def extract_selected (r : Rec) : Bool :=
  r.inventory_number = [] || icontains r.inventory_number "invalid".data

/-- `get_records_without_inventory_numbers` of
`extract_inventory_numbers.py`. -/
def get_records_without_inventory_numbers (l : List Rec) : List Rec :=
  l.filter extract_selected

/-- `Command.handle` of `extract_inventory_numbers.py`.  The updated-records
list is computed from the selected records in both modes and its length is
the reported count.  A dry run stops there; a live run writes each updated
record back by primary key (`bulk_update` on `inventory_number`), which is
the per-record map shown: a selected record is replaced by its extraction
image (`extract_update r = r` exactly when the record produced no entry in
the updated list), every other record is untouched. -/
def extract_command (dry_run : Bool) (l : List Rec) : List Rec × Nat :=
  let updated := extract_inventory_numbers (get_records_without_inventory_numbers l)
  (if dry_run then l
   else l.map fun r => if extract_selected r then extract_update r else r,
   updated.length)

/-- The substring-to-status-id table of `parse_status_info` in
`import_status_info.py`, in source order. -/
def status_info_to_model_id_map : List (Str × Nat) :=
  [("Inventory number in filename is incorrect".data, 1),
   ("Duplicated in Source Data".data, 2),
   ("invalid vault".data, 3),
   ("invalid inventory_no".data, 4),
   ("Presence of multiple Inventory_nos".data, 5),
   ("Multiple corresponding Inventory_no in PD".data, 6)]

/-- `parse_status_info` of `import_status_info.py`: every table entry whose
substring occurs case-insensitively in the input contributes its id, in
table order. -/
def parse_status_info (status_info : Str) : List Nat :=
  (status_info_to_model_id_map.filter fun p =>
    has_substring (lowerStr p.1) (lowerStr status_info)).map (·.2)

/-- `dropLit` succeeds exactly on inputs that start with the literal, and
returns the rest. -/
theorem dropLit_eq_some {p : Str} :
    ∀ {s r : Str}, dropLit p s = some r ↔ s = p ++ r := by
  induction p with
  | nil =>
    intro s r
    simp only [dropLit, List.nil_append, Option.some.injEq]
  | cons c p ih =>
    intro s r
    cases s with
    | nil => simp [dropLit]
    | cons d t =>
      simp only [dropLit, List.cons_append, List.cons.injEq]
      by_cases h : c = d
      · subst h
        simp [ih]
      · rw [if_neg h]
        constructor
        · intro hx
          exact Option.noConfusion hx
        · rintro ⟨h1, h2⟩
          exact absurd h1.symm h

/-- `dropClass` succeeds exactly when the first `n` characters all satisfy
the class, and returns the input after them. -/
theorem dropClass_eq_some {p : Char → Bool} :
    ∀ {n : Nat} {s r : Str},
      dropClass p n s = some r ↔
        n ≤ s.length ∧ (s.take n).all p ∧ r = s.drop n := by
  intro n
  induction n with
  | zero =>
    intro s r
    simp [dropClass, eq_comm]
  | succ n ih =>
    intro s r
    cases s with
    | nil => simp [dropClass]
    | cons c t =>
      simp only [dropClass, List.take_succ_cons, List.all_cons,
        List.drop_succ_cons, List.length_cons]
      by_cases h : p c
      · rw [if_pos h]
        rw [ih]
        simp [h, Nat.succ_le_succ_iff]
      · rw [if_neg h]
        simp [h]

/-- Stripping yields the empty string exactly when every character is
whitespace. -/
theorem pyStrip_eq_nil_iff {s : Str} :
    pyStrip s = [] ↔ ∀ c ∈ s, pyIsSpace c := by
  unfold pyStrip
  rw [List.reverse_eq_nil_iff, List.dropWhile_eq_nil_iff]
  constructor
  · intro h c hc
    rcases List.mem_append.mp
        ((List.takeWhile_append_dropWhile (p := pyIsSpace) (l := s)) ▸ hc) with
        h1 | h2
    · exact List.mem_takeWhile_imp h1
    · exact h _ (List.mem_reverse.mpr h2)
  · intro h c hc
    exact h c (List.dropWhile_sublist pyIsSpace |>.subset (List.mem_reverse.mp hc))

/-- Every element of the deduplicated list occurs in the original. -/
theorem mem_pyDedup : ∀ {l : List Str} {a : Str}, a ∈ pyDedup l → a ∈ l
  | [], a, h => by simp [pyDedup] at h
  | x :: xs, a, h => by
    rw [pyDedup] at h
    rcases List.mem_cons.mp h with h1 | h2
    · exact h1 ▸ List.mem_cons_self x xs
    · exact List.mem_cons_of_mem x
        (List.mem_of_mem_filter (mem_pyDedup h2))
termination_by l => l.length
decreasing_by
  simp only [List.length_cons]
  exact Nat.lt_succ_of_le (List.length_filter_le _ _)

/-- Deduplication produces a list without duplicates. -/
theorem pyDedup_nodup : ∀ (l : List Str), (pyDedup l).Nodup
  | [] => by simp [pyDedup]
  | x :: xs => by
    rw [pyDedup]
    refine List.nodup_cons.mpr ⟨fun hx => ?_, pyDedup_nodup _⟩
    have := List.of_mem_filter (mem_pyDedup hx)
    simp at this
termination_by l => l.length
decreasing_by
  simp only [List.length_cons]
  exact Nat.lt_succ_of_le (List.length_filter_le _ _)

/-- Removing the deny-listed values from a duplicate-free list leaves
neither of them in the result. -/
theorem remove_false_positives_not_mem {l : List Str} (h : l.Nodup) :
    "T01".data ∉ remove_false_positives l ∧
      "FE3018T".data ∉ remove_false_positives l := by
  unfold remove_false_positives
  have keyT : "T01".data ∉ (if "T01".data ∈ l then l.erase "T01".data else l) ∨
      "T01".data ∉ l := by
    by_cases h1 : "T01".data ∈ l
    · left
      rw [if_pos h1]
      intro hm
      rcases (h.mem_erase_iff).mp hm with ⟨hne, _⟩
      exact hne rfl
    · right
      exact h1
  constructor
  · intro hm
    by_cases h2 : "FE3018T".data ∈ (if "T01".data ∈ l then l.erase "T01".data else l)
    · rw [if_pos h2] at hm
      have hm' := List.mem_of_mem_erase hm
      rcases keyT with hk | hk
      · exact hk hm'
      · by_cases h1 : "T01".data ∈ l
        · exact hk h1
        · rw [if_neg h1] at hm'
          exact hk hm'
    · rw [if_neg h2] at hm
      rcases keyT with hk | hk
      · exact hk hm
      · by_cases h1 : "T01".data ∈ l
        · exact hk h1
        · rw [if_neg h1] at hm
          exact hk hm
  · have hnodup1 : (if "T01".data ∈ l then l.erase "T01".data else l).Nodup := by
      by_cases h1 : "T01".data ∈ l
      · rw [if_pos h1]
        exact h.erase _
      · rw [if_neg h1]
        exact h
    intro hm
    by_cases h2 : "FE3018T".data ∈ (if "T01".data ∈ l then l.erase "T01".data else l)
    · rw [if_pos h2] at hm
      rcases (hnodup1.mem_erase_iff).mp hm with ⟨hne, _⟩
      exact hne rfl
    · rw [if_neg h2] at hm
      exact h2 hm

/-- C7: for every input text, `parse_status_info` returns exactly the ids of
the table entries whose substring is case-insensitively contained in the
text (tags are independent, several can fire); the concrete example yields
exactly the tags 3 (invalid vault) and 5 (presence of multiple inventory
numbers), and the empty input yields the empty set. -/
theorem parse_status_info_spec :
    (∀ (s : Str) (n : Nat),
      n ∈ parse_status_info s ↔
        ∃ p ∈ status_info_to_model_id_map,
          has_substring (lowerStr p.1) (lowerStr s) = true ∧ p.2 = n) ∧
    (parse_status_info
        "YES: invalid vault Presence of multiple Inventory_nos".data).toFinset
      = ({3, 5} : Finset Nat) ∧
    parse_status_info "".data = [] := by
  refine ⟨fun s n => ?_, by decide, by decide⟩
  simp only [parse_status_info, List.mem_map, List.mem_filter]
  constructor
  · rintro ⟨p, ⟨hp, hs⟩, he⟩
    exact ⟨p, hp, hs, he⟩
  · rintro ⟨p, hp, hs, he⟩
    exact ⟨p, ⟨hp, hs⟩, he⟩

/-- C9: the cleanup pipeline succeeds exactly when the required tag
`Needs review` is present in the status catalog — pass G's catalog lookup is
the only failure point, and it fails if and only if the tag is absent;
no pass fails on any record contents (the equivalence holds for every record
store). -/
theorem pipeline_error_iff_missing_status :
    ∀ (catalog : List Str) (l : List Rec),
      (clean_imported_data catalog l).toOption.isSome = true ↔
        "Needs review".data ∈ catalog := by
  intro catalog l
  unfold clean_imported_data set_status_for_records_with_inline_notes
  by_cases h : "Needs review".data ∈ catalog
  · simp [h, Except.toOption]
  · simp [h, Except.toOption]

/-- C10: the extraction command never touches a record that already has a
usable inventory number — whenever the record at a position is not selected
by `get_records_without_inventory_numbers` (its `inventory_number` is
non-empty and does not contain `invalid` case-insensitively), the command
leaves that position of the store unchanged, in both dry and live mode. -/
theorem extract_command_frame :
    ∀ (dry : Bool) (l : List Rec) (i : Nat),
      extract_selected (l.getD i default) = false →
      (extract_command dry l).1.getD i default = l.getD i default := by
  intro dry l i h
  unfold extract_command
  cases dry with
  | true => simp
  | false =>
    rw [if_neg Bool.false_ne_true]
    rw [List.getD_eq_getElem?_getD, List.getElem?_map]
    cases hx : l[i]? with
    | none =>
      rw [List.getD_eq_getElem?_getD, hx]
      rfl
    | some r =>
      have hr : l.getD i default = r := by
        rw [List.getD_eq_getElem?_getD, hx]
        rfl
      rw [hr] at h
      simp [h, hr, hx]

/-- Witness for `extract_command_frame`: a record with the populated
inventory number `M123456` is not selected and passes through a live run
unchanged. -/
theorem extract_command_frame_witness :
    (extract_command false [{ inventory_number := "M123456".data }]).1.getD 0 default
      = [({ inventory_number := "M123456".data } : Rec)].getD 0 default :=
  extract_command_frame false [{ inventory_number := "M123456".data }] 0 (by decide)

/-- The deletion criterion as the specification claim states it for pass F:
the record's only non-blank field among the non-relational fields is
`hard_drive_name` itself. -/
def only_nonblank_is_hard_drive_name (r : Rec) : Bool :=
  r.hard_drive_name ≠ [] && r.carrier_a = [] && r.carrier_a_location = [] &&
  r.carrier_b = [] && r.carrier_b_location = [] &&
  r.hard_drive_barcode_id = [] && r.file_folder_name = [] &&
  r.sub_folder_name = [] && r.file_name = [] && r.inventory_number = [] &&
  r.otherFields.all (· = [])

/-- C5 counterexample: a record whose only non-blank field is a
`hard_drive_name` with surrounding whitespace satisfies the claim's
deletion criterion but survives pass F, because the pass compares the
whitespace-stripped concatenation with the unstripped field value. -/
theorem hard_drive_only_strip_counterexample :
    only_nonblank_is_hard_drive_name { hard_drive_name := " X ".data } = true ∧
    delete_hard_drive_only_records [{ hard_drive_name := " X ".data }] =
      ([{ hard_drive_name := " X ".data }], 0) := by
  decide

/-- C5 amended: pass F deletes a record exactly when its whitespace-stripped
combined field data equals its `hard_drive_name` field, leaving every other
record in place unchanged; for records whose `hard_drive_name` carries no
surrounding whitespace, the claim's hard-drive-only criterion implies that
equality (so such records are deleted). -/
theorem delete_hard_drive_only_records_spec :
    (∀ l : List Rec,
      delete_hard_drive_only_records l =
        (l.filter (fun r =>
            decide (get_combined_field_data r ≠ r.hard_drive_name)),
         (l.filter (fun r =>
            decide (get_combined_field_data r = r.hard_drive_name))).length)) ∧
    (∀ r : Rec, only_nonblank_is_hard_drive_name r = true →
      pyStrip r.hard_drive_name = r.hard_drive_name →
      get_combined_field_data r = r.hard_drive_name) := by
  constructor
  · intro l
    induction l with
    | nil => rfl
    | cons r rs ih =>
      simp only [delete_hard_drive_only_records, ih, List.filter_cons]
      by_cases h : get_combined_field_data r = r.hard_drive_name
      · simp [h]
      · simp [h]
  · intro r hb hs
    simp only [only_nonblank_is_hard_drive_name, Bool.and_eq_true,
      decide_eq_true_eq, List.all_eq_true] at hb
    obtain ⟨⟨⟨⟨⟨⟨⟨⟨⟨⟨hn, h1⟩, h2⟩, h3⟩, h4⟩, h5⟩, h6⟩, h7⟩, h8⟩, h9⟩, h10⟩ := hb
    have hflat : r.otherFields.flatten = [] := by
      rw [List.flatten_eq_nil_iff]
      intro x hx
      exact h10 x hx
    unfold get_combined_field_data
    rw [h1, h2, h3, h4, h5, h6, h7, h8, h9, hflat]
    simpa using hs

/-- Witness for `delete_hard_drive_only_records_spec`: a record whose
`hard_drive_name` is `X` and whose other fields are blank has combined field
data equal to its `hard_drive_name`. -/
theorem delete_hard_drive_only_records_spec_witness :
    get_combined_field_data { hard_drive_name := "X".data } =
      Rec.hard_drive_name { hard_drive_name := "X".data } :=
  delete_hard_drive_only_records_spec.2 _ (by decide) (by decide)

/-- The detection test of `process_carrier_fields`: the record is in the
pass's query (its carrier field is non-empty) and its carrier field parses
to a tape id, so a live run would update it. -/
def carrier_would_update (f : CarrierField) (r : Rec) : Bool :=
  getCarrier f r ≠ [] &&
    (match get_tape_info_parts (getCarrier f r) with
     | (some (_ :: _), _) => true
     | _ => false)

/-- C8 counterexample: on a store holding one record with the valid tape id
`820001` in `carrier_a`, a live run of `process_carrier_fields` reports one
changed record while the report-only (dry) run reports zero — the two modes
do not compute the same counts. -/
theorem report_mode_count_counterexample :
    (process_carrier_fields .a true [{ carrier_a := "820001".data }]).2 = 1 ∧
    (process_carrier_fields .a false [{ carrier_a := "820001".data }]).2 = 0 := by
  decide

/-- C8 amended: dry modes suppress all persistence — a report-only run of
`process_carrier_fields` returns the store unchanged and a count of zero
(its counter counts applied updates only, so it does not equal the live
count, which is the number of records whose carrier field parses to a tape
id); the extraction command's dry run returns the store unchanged with the
same count as a live run over the same initial store. -/
theorem dry_run_spec :
    (∀ (f : CarrierField) (l : List Rec),
      process_carrier_fields f false l = (l, 0)) ∧
    (∀ (f : CarrierField) (l : List Rec),
      (process_carrier_fields f true l).2 =
        (l.filter (carrier_would_update f)).length) ∧
    (∀ l : List Rec, extract_command true l = (l, (extract_command false l).2)) := by
  refine ⟨fun f l => ?_, fun f l => ?_, fun l => rfl⟩
  · induction l with
    | nil => rfl
    | cons r rs ih =>
      simp only [process_carrier_fields, ih]
      by_cases h : getCarrier f r = []
      · rw [if_pos h]
      · rw [if_neg h]
        cases hp : get_tape_info_parts (getCarrier f r) with
        | mk tid vloc =>
          cases tid with
          | none => rfl
          | some t =>
            cases t with
            | nil => rfl
            | cons c cs => rfl
  · induction l with
    | nil => rfl
    | cons r rs ih =>
      simp only [process_carrier_fields, List.filter_cons]
      by_cases h : getCarrier f r = []
      · rw [if_pos h]
        have hw : carrier_would_update f r = false := by
          simp [carrier_would_update, h]
        rw [hw]
        simpa using ih
      · rw [if_neg h]
        cases hp : get_tape_info_parts (getCarrier f r) with
        | mk tid vloc =>
          cases tid with
          | none =>
            have hw : carrier_would_update f r = false := by
              simp [carrier_would_update, h, hp]
            rw [hw]
            simpa using ih
          | some t =>
            cases t with
            | nil =>
              have hw : carrier_would_update f r = false := by
                simp [carrier_would_update, h, hp]
              rw [hw]
              simpa using ih
            | cons c cs =>
              have hw : carrier_would_update f r = true := by
                simp [carrier_would_update, h, hp]
              rw [hw]
              simpa using ih

/-- C6: for every record, the extraction pipeline deduplicates the pattern
matches of the slash-joined path fields preserving first occurrences,
removes the deny-listed values (so `T01` and `FE3018T` never survive into
the output, whatever the path contents), joins the survivors with a pipe,
and leaves the record unmodified when the resulting string is empty —
whether because nothing matched or because only deny-listed values
matched. -/
theorem extract_inventory_numbers_spec :
    ∀ r : Rec,
      build_inventory_number_string
          (findall_inventory_numbers (record_path_string r)) =
        joinPipe (remove_false_positives
          (pyDedup (findall_inventory_numbers (record_path_string r)))) ∧
      "T01".data ∉ remove_false_positives
          (pyDedup (findall_inventory_numbers (record_path_string r))) ∧
      "FE3018T".data ∉ remove_false_positives
          (pyDedup (findall_inventory_numbers (record_path_string r))) ∧
      extract_update r =
        (if build_inventory_number_string
              (findall_inventory_numbers (record_path_string r)) = [] then r
         else { r with inventory_number := (build_inventory_number_string
             (findall_inventory_numbers (record_path_string r))) }) := by
  intro r
  obtain ⟨hT, hF⟩ := remove_false_positives_not_mem
    (pyDedup_nodup (findall_inventory_numbers (record_path_string r)))
  refine ⟨rfl, hT, hF, ?_⟩
  have hnil : build_inventory_number_string [] = [] := by
    simp [build_inventory_number_string, pyDedup, remove_false_positives,
      joinPipe]
  simp only [extract_update]
  by_cases hm : findall_inventory_numbers (record_path_string r) = []
  · rw [if_pos hm, hm, hnil, if_pos rfl]
  · rw [if_neg hm]

/-- Matching a concatenated literal is matching its parts in turn. -/
theorem dropLit_append {p q : Str} :
    ∀ {s : Str}, dropLit (p ++ q) s = (dropLit p s).bind (dropLit q) := by
  induction p with
  | nil => intro s; rfl
  | cons c p ih =>
    intro s
    cases s with
    | nil => rfl
    | cons d t =>
      simp only [List.cons_append, dropLit]
      by_cases h : c = d
      · rw [if_pos h, if_pos h]
        exact ih
      · rw [if_neg h, if_neg h]
        rfl

/-- The device-marker pattern as the specification claim states it: a
case-tolerant and space-tolerant literal `Digital Lab` or `DigitalLab`
followed by a digit — here read as matching the lowered field against the
lowered literals. -/
def claim_drive_marker_ci (s : Str) : Bool :=
  (match dropLit "digital lab ".data (lowerStr s) with
   | some (c :: _) => c.isDigit
   | _ => false) ||
  (match dropLit "digitallab ".data (lowerStr s) with
   | some (c :: _) => c.isDigit
   | _ => false)

/-- C3 counterexample: the field `digital lab 1` matches the claim's
case-tolerant device-marker pattern, so by the claim the second record would
be adopted as the carried drive name with no mutation; the pass instead
overwrites it with the previously carried `Digital Lab 1` and counts it as
updated, because the source pattern is case-sensitive. -/
theorem drive_marker_case_sensitivity_counterexample :
    claim_drive_marker_ci "digital lab 1".data = true ∧
    set_hard_drive_names
      [{ id := 1, hard_drive_name := "Digital Lab 1".data,
         otherFields := ["x".data] },
       { id := 2, hard_drive_name := "digital lab 1".data }] =
      ([{ id := 1, hard_drive_name := "Digital Lab 1".data,
          otherFields := ["x".data] },
        { id := 2, hard_drive_name := "Digital Lab 1".data }], 1) := by
  decide

/-- The device marker as amended: the case-sensitive literal `Digital Lab `
or `DigitalLab ` followed by an ASCII digit, at the start of the field. -/
def amended_drive_marker (s : Str) : Bool :=
  (match dropLit "Digital Lab ".data s with
   | some (c :: _) => c.isDigit
   | _ => false) ||
  (match dropLit "DigitalLab ".data s with
   | some (c :: _) => c.isDigit
   | _ => false)

/-- The source device-marker test agrees with the amended two-literal
formulation on every string. -/
theorem isDriveName_eq_amended : ∀ s : Str, isDriveName s = amended_drive_marker s := by
  intro s
  unfold isDriveName amended_drive_marker
  have e1 : ("Digital Lab ".data : Str) = "Digital".data ++ (' ' :: "Lab ".data) := by
    decide
  have e2 : ("DigitalLab ".data : Str) = "Digital".data ++ "Lab ".data := by
    decide
  rw [e1, e2, dropLit_append, dropLit_append]
  cases hd : dropLit "Digital".data s with
  | none => rfl
  | some rest =>
    cases rest with
    | nil =>
      simp [dropLit]
    | cons c0 t =>
      by_cases hsp : c0 = ' '
      · subst hsp
        have h1 : dropLit (' ' :: "Lab ".data) (' ' :: t) =
            dropLit "Lab ".data t := by
          simp [dropLit]
        have h2 : dropLit "Lab ".data (' ' :: t) = none := by
          simp [dropLit]
        simp only [Option.some_bind, h1, h2]
        simp
      · have hsp' : ¬ (' ' = c0) := fun h => hsp h.symm
        have h1 : dropLit (' ' :: "Lab ".data) (c0 :: t) = none := by
          simp only [dropLit]
          rw [if_neg hsp']
        simp only [Option.some_bind, h1]
        simp [hsp]

/-- One step of pass B as the amended claim describes it: skip empty
records; a field matching the case-sensitive device marker is adopted as
the carried drive name with no mutation; a header record resets the carried
name; otherwise a set carried name overwrites the record's
`hard_drive_name` and the record counts as updated. -/
def amended_pass_b_step (cur : Option Str) (r : Rec) : Rec × Option Str × Nat :=
  if is_empty_record r then (r, cur, 0)
  else if amended_drive_marker r.hard_drive_name then
    (r, some r.hard_drive_name, 0)
  else if is_header_record r then (r, none, 0)
  else
    match cur with
    | some (c :: cs) => ({ r with hard_drive_name := c :: cs }, cur, 1)
    | _ => (r, cur, 0)

/-- Pass B as the amended claim describes it, threading the carried drive
name through the per-record steps. -/
def amended_set_hard_drive_names_aux (cur : Option Str) :
    List Rec → List Rec × Nat
  | [] => ([], 0)
  | r :: rs =>
    let s := amended_pass_b_step cur r
    let p := amended_set_hard_drive_names_aux s.2.1 rs
    (s.1 :: p.1, s.2.2 + p.2)

/-- C3 amended: pass B behaves, on every store, exactly as the claim
describes once the device-marker pattern is read case-sensitively (the
literal `Digital Lab ` or `DigitalLab ` followed by a digit, at the start of
the field): markers are adopted without mutation, headers reset the carried
name, and otherwise a set carried name overwrites the record and counts
it. -/
theorem set_hard_drive_names_spec :
    ∀ l : List Rec,
      set_hard_drive_names l = amended_set_hard_drive_names_aux none l := by
  have aux : ∀ (l : List Rec) (cur : Option Str),
      set_hard_drive_names_aux cur l = amended_set_hard_drive_names_aux cur l := by
    intro l
    induction l with
    | nil => intro cur; rfl
    | cons r rs ih =>
      intro cur
      simp only [set_hard_drive_names_aux, amended_set_hard_drive_names_aux,
        amended_pass_b_step, isDriveName_eq_amended]
      by_cases he : is_empty_record r
      · simp [he, ih]
      · by_cases hm : amended_drive_marker r.hard_drive_name
        · simp [he, hm, ih]
        · by_cases hh : is_header_record r
          · simp [he, hm, hh, ih]
          · cases cur with
            | none => simp [he, hm, hh, ih]
            | some v =>
              cases v with
              | nil => simp [he, hm, hh, ih]
              | cons c cs =>
                simp [he, hm, hh, ih, Nat.add_comm]
  intro l
  exact aux l none

/-- Pass D as the claim literally describes it: within the visited scope
(blank `hard_drive_name`, `carrier_a_location` not `Digital Lab`), any
record with both carrier fields populated is adopted as the carried pair,
with no exception for header or empty records. -/
def claim_set_carrier_info_aux (pa pb : Str) : List Rec → List Rec × Nat
  | [] => ([], 0)
  | r :: rs =>
    if carrier_pass_visits r then
      if r.carrier_a ≠ [] ∧ r.carrier_b ≠ [] then
        let p := claim_set_carrier_info_aux r.carrier_a r.carrier_b rs
        (r :: p.1, p.2)
      else if pa ≠ [] ∧ pb ≠ [] ∧ has_file_info r then
        let r' := { r with
          carrier_a := if r.carrier_a ≠ [] then r.carrier_a else pa,
          carrier_b := if r.carrier_b ≠ [] then r.carrier_b else pb }
        let p := claim_set_carrier_info_aux pa pb rs
        (r' :: p.1, p.2 + 1)
      else
        let p := claim_set_carrier_info_aux pa pb rs
        (r :: p.1, p.2)
    else
      let p := claim_set_carrier_info_aux pa pb rs
      (r :: p.1, p.2)

/-- C4 counterexample: a header record carrying the populated pair `C`, `D`
is skipped by the pass, so a following blank record is filled from the
earlier pair `A`, `B`; under the claim's description the header's pair would
be adopted and the record filled with `C`, `D`.  The pass's output differs
from the claim's on this store. -/
theorem carrier_info_header_adoption_counterexample :
    set_carrier_info
      [{ id := 1, carrier_a := "A".data, carrier_b := "B".data },
       { id := 2, file_folder_name := "File Folder Name".data,
         carrier_a := "C".data, carrier_b := "D".data },
       { id := 3, file_name := "f".data }] =
      ([{ id := 1, carrier_a := "A".data, carrier_b := "B".data },
        { id := 2, file_folder_name := "File Folder Name".data,
          carrier_a := "C".data, carrier_b := "D".data },
        { id := 3, file_name := "f".data,
          carrier_a := "A".data, carrier_b := "B".data }], 1) ∧
    claim_set_carrier_info_aux [] []
      [{ id := 1, carrier_a := "A".data, carrier_b := "B".data },
       { id := 2, file_folder_name := "File Folder Name".data,
         carrier_a := "C".data, carrier_b := "D".data },
       { id := 3, file_name := "f".data }] =
      ([{ id := 1, carrier_a := "A".data, carrier_b := "B".data },
        { id := 2, file_folder_name := "File Folder Name".data,
          carrier_a := "C".data, carrier_b := "D".data },
        { id := 3, file_name := "f".data,
          carrier_a := "C".data, carrier_b := "D".data }], 1) ∧
    ({ id := 3, file_name := "f".data, carrier_a := "A".data,
       carrier_b := "B".data } : Rec) ≠
      { id := 3, file_name := "f".data, carrier_a := "C".data,
        carrier_b := "D".data } := by
  refine ⟨by decide, by decide, by decide⟩

/-- One step of pass D as the amended claim describes it: outside the
visited scope, or for empty or header records, nothing changes and the
carried pair is kept; a visited record with both carrier fields populated is
adopted as the new carried pair with no mutation; otherwise, when both
carried values are non-blank and the record has file info, only its blank
carrier fields are filled from the carried pair and the record counts as
updated. -/
def amended_pass_d_step (pa pb : Str) (r : Rec) : Rec × (Str × Str) × Nat :=
  if carrier_pass_visits r then
    if is_empty_record r then (r, (pa, pb), 0)
    else if is_header_record r then (r, (pa, pb), 0)
    else if r.carrier_a ≠ [] ∧ r.carrier_b ≠ [] then
      (r, (r.carrier_a, r.carrier_b), 0)
    else if pa ≠ [] ∧ pb ≠ [] ∧ has_file_info r then
      ({ r with
          carrier_a := if r.carrier_a ≠ [] then r.carrier_a else pa,
          carrier_b := if r.carrier_b ≠ [] then r.carrier_b else pb },
       (pa, pb), 1)
    else (r, (pa, pb), 0)
  else (r, (pa, pb), 0)

/-- Pass D as the amended claim describes it, threading the carried pair
through the per-record steps. -/
def amended_set_carrier_info_aux (pa pb : Str) : List Rec → List Rec × Nat
  | [] => ([], 0)
  | r :: rs =>
    let s := amended_pass_d_step pa pb r
    let p := amended_set_carrier_info_aux s.2.1.1 s.2.1.2 rs
    (s.1 :: p.1, s.2.2 + p.2)

/-- C4 amended: pass D behaves, on every store, exactly as the claim
describes once empty records and header records are excluded from adoption
as well as from mutation: it visits only records with blank
`hard_drive_name` and `carrier_a_location` other than `Digital Lab`, adopts
the carrier pair of visited non-empty non-header records that have both
carriers populated, and otherwise fills only blank carrier fields — never
overwriting a non-blank one — exactly when both carried values are non-blank
and the record has file-identifying info. -/
theorem set_carrier_info_spec :
    ∀ l : List Rec,
      set_carrier_info l = amended_set_carrier_info_aux [] [] l := by
  have aux : ∀ (l : List Rec) (pa pb : Str),
      set_carrier_info_aux pa pb l = amended_set_carrier_info_aux pa pb l := by
    intro l
    induction l with
    | nil => intro pa pb; rfl
    | cons r rs ih =>
      intro pa pb
      simp only [set_carrier_info_aux, amended_set_carrier_info_aux,
        amended_pass_d_step]
      by_cases hv : carrier_pass_visits r = true
      · by_cases he : is_empty_record r
        · simp [hv, he, ih]
        · by_cases hh : is_header_record r
          · simp [hv, he, hh, ih]
          · by_cases hc : r.carrier_a ≠ [] ∧ r.carrier_b ≠ []
            · simp [hv, he, hh, hc, ih]
            · by_cases hp : pa ≠ [] ∧ pb ≠ [] ∧ has_file_info r
              · simp [hv, he, hh, hc, hp, ih, Nat.add_comm]
              · simp [hv, he, hh, hc, hp, ih]
      · simp [hv, ih]
  intro l
  exact aux l [] []

/-- C1 counterexample: on a store with a device-marker record (carrying
extra data), a header record, and a blank-named data record, the first full
pipeline run deletes only the header (pass E reports 1, all else 0); the
second run against that output reports 1 changed record in pass B, because
the header boundary that stopped propagation no longer exists.  The second
run is not all-zero, and in particular re-running `set_hard_drive_names`
against the pipeline's own output makes further changes. -/
theorem pipeline_second_run_changes_counterexample :
    (clean_imported_data ["Needs review".data]
      [{ id := 1, hard_drive_name := "Digital Lab 1".data,
         otherFields := ["x".data] },
       { id := 2, file_folder_name := "File Folder Name".data },
       { id := 3, file_name := "f".data }]).toOption =
      some ([{ id := 1, hard_drive_name := "Digital Lab 1".data,
               otherFields := ["x".data] },
             { id := 3, file_name := "f".data }],
            ⟨0, 0, 0, 0, 1, 0, 0⟩) ∧
    (clean_imported_data ["Needs review".data]
      [{ id := 1, hard_drive_name := "Digital Lab 1".data,
         otherFields := ["x".data] },
       { id := 3, file_name := "f".data }]).toOption =
      some ([{ id := 1, hard_drive_name := "Digital Lab 1".data,
               otherFields := ["x".data] },
             { id := 3, hard_drive_name := "Digital Lab 1".data,
               file_name := "f".data }],
            ⟨0, 1, 0, 0, 0, 0, 0⟩) := by
  refine ⟨by decide, by decide⟩

/-- A string accepted by the device-marker test starts with the letter of
its literal. -/
theorem isDriveName_head : ∀ {v : Str}, isDriveName v = true → ∃ t, v = 'D' :: t := by
  intro v h
  unfold isDriveName at h
  cases hd : dropLit "Digital".data v with
  | none =>
    rw [hd] at h
    exact absurd h (by simp)
  | some rest =>
    have hv := dropLit_eq_some.mp hd
    have e : ("Digital".data : Str) = 'D' :: "igital".data := by decide
    rw [e] at hv
    exact ⟨"igital".data ++ rest, by simpa using hv⟩

/-- A record whose `hard_drive_name` passes the device-marker test is not an
empty record. -/
theorem not_empty_of_drive {r : Rec} (h : isDriveName r.hard_drive_name = true) :
    is_empty_record r = false := by
  obtain ⟨t, ht⟩ := isDriveName_head h
  simp only [is_empty_record, get_combined_field_data, decide_eq_false_iff_not]
  rw [ht, pyStrip_eq_nil_iff]
  intro hall
  have hD := hall 'D' (by simp)
  exact absurd hD (by decide)

/-- C1 amended: the full pipeline run twice is not change-free (the
counterexample), but the per-pass re-run law holds for the first two passes:
running `delete_empty_records` or `set_hard_drive_names` a second time,
immediately against that same pass's own output, reports zero changed
records on every store. -/
theorem delete_empty_and_set_hard_drive_names_idempotent :
    (∀ l : List Rec, (delete_empty_records (delete_empty_records l).1).2 = 0) ∧
    (∀ l : List Rec, (set_hard_drive_names (set_hard_drive_names l).1).2 = 0) := by
  constructor
  · have hmem : ∀ (l : List Rec) (r : Rec),
        r ∈ (delete_empty_records l).1 → is_empty_record r = false := by
      intro l
      induction l with
      | nil =>
        intro r h
        simp [delete_empty_records] at h
      | cons x xs ih =>
        intro r h
        simp only [delete_empty_records] at h
        by_cases hx : is_empty_record x = true
        · rw [if_pos hx] at h
          exact ih r h
        · rw [if_neg hx] at h
          rcases List.mem_cons.mp h with h1 | h2
          · rw [h1]
            simpa using hx
          · exact ih r h2
    have hcount : ∀ l : List Rec,
        (∀ r ∈ l, is_empty_record r = false) → (delete_empty_records l).2 = 0 := by
      intro l
      induction l with
      | nil => intro _; rfl
      | cons x xs ih =>
        intro h
        simp only [delete_empty_records]
        have hx : ¬ (is_empty_record x = true) := by
          rw [h x (List.mem_cons_self x xs)]
          exact Bool.false_ne_true
        rw [if_neg hx]
        exact ih fun r hr => h r (List.mem_cons_of_mem x hr)
    intro l
    exact hcount _ (hmem l)
  · have shdn_cons : ∀ (cur : Option Str) (r : Rec) (rs : List Rec),
        set_hard_drive_names_aux cur (r :: rs) =
          if is_empty_record r then
            (r :: (set_hard_drive_names_aux cur rs).1,
             (set_hard_drive_names_aux cur rs).2)
          else if isDriveName r.hard_drive_name then
            (r :: (set_hard_drive_names_aux (some r.hard_drive_name) rs).1,
             (set_hard_drive_names_aux (some r.hard_drive_name) rs).2)
          else if is_header_record r then
            (r :: (set_hard_drive_names_aux none rs).1,
             (set_hard_drive_names_aux none rs).2)
          else
            match cur with
            | some (c :: cs) =>
              ({ r with hard_drive_name := c :: cs } ::
                 (set_hard_drive_names_aux (some (c :: cs)) rs).1,
               (set_hard_drive_names_aux (some (c :: cs)) rs).2 + 1)
            | _ =>
              (r :: (set_hard_drive_names_aux cur rs).1,
               (set_hard_drive_names_aux cur rs).2) := by
      intro cur r rs
      rfl
    have aux : ∀ (l : List Rec) (cur : Option Str),
        (∀ v, cur = some v → isDriveName v = true) →
        set_hard_drive_names_aux cur (set_hard_drive_names_aux cur l).1 =
          ((set_hard_drive_names_aux cur l).1, 0) := by
      intro l
      induction l with
      | nil => intro cur hst; rfl
      | cons r rs ih =>
        intro cur hst
        cases he : is_empty_record r with
        | true =>
          rw [shdn_cons cur r rs, if_pos he]
          try dsimp only
          rw [shdn_cons, if_pos he]
          try dsimp only
          rw [ih cur hst]
        | false =>
          have hne_e : ¬ (is_empty_record r = true) := by
            rw [he]
            exact Bool.false_ne_true
          cases hm : isDriveName r.hard_drive_name with
          | true =>
            rw [shdn_cons cur r rs, if_neg hne_e, if_pos hm]
            try dsimp only
            rw [shdn_cons, if_neg hne_e, if_pos hm]
            try dsimp only
            rw [ih (some r.hard_drive_name) (by
              intro v hv
              cases hv
              exact hm)]
          | false =>
            have hne_m : ¬ (isDriveName r.hard_drive_name = true) := by
              rw [hm]
              exact Bool.false_ne_true
            cases hh : is_header_record r with
            | true =>
              rw [shdn_cons cur r rs, if_neg hne_e, if_neg hne_m, if_pos hh]
              try dsimp only
              rw [shdn_cons, if_neg hne_e, if_neg hne_m, if_pos hh]
              try dsimp only
              rw [ih none (by intro v hv; cases hv)]
            | false =>
              have hne_h : ¬ (is_header_record r = true) := by
                rw [hh]
                exact Bool.false_ne_true
              cases cur with
              | none =>
                rw [shdn_cons none r rs, if_neg hne_e, if_neg hne_m,
                  if_neg hne_h]
                try dsimp only
                rw [shdn_cons, if_neg hne_e, if_neg hne_m, if_neg hne_h]
                try dsimp only
                rw [ih none (by intro v hv; cases hv)]
              | some v =>
                cases v with
                | nil =>
                  rw [shdn_cons (some []) r rs, if_neg hne_e, if_neg hne_m,
                    if_neg hne_h]
                  try dsimp only
                  rw [shdn_cons, if_neg hne_e, if_neg hne_m, if_neg hne_h]
                  try dsimp only
                  rw [ih (some []) hst]
                | cons c cs =>
                  have hdrive : isDriveName (c :: cs) = true :=
                    hst (c :: cs) rfl
                  have hne : is_empty_record
                      { r with hard_drive_name := c :: cs } = false :=
                    not_empty_of_drive
                      (r := { r with hard_drive_name := c :: cs }) hdrive
                  have hne' : ¬ (is_empty_record
                      { r with hard_drive_name := c :: cs } = true) := by
                    rw [hne]
                    exact Bool.false_ne_true
                  rw [shdn_cons (some (c :: cs)) r rs, if_neg hne_e,
                    if_neg hne_m, if_neg hne_h]
                  try dsimp only
                  rw [shdn_cons, if_neg hne']
                  try dsimp only
                  rw [if_pos hdrive]
                  try dsimp only
                  rw [ih (some (c :: cs)) (by
                    intro v hv
                    cases hv
                    exact hdrive)]
    intro l
    have h := aux l none (by intro v hv; cases hv)
    unfold set_hard_drive_names
    rw [h]

/-- A tape id as the specification claim describes it: the whole string is
six digits, or three uppercase letters and three digits, or four uppercase
letters and two digits, or one uppercase letter and six digits. -/
def claim_is_tape_id (x : Str) : Bool :=
  (decide (x.length = 6) && x.all Char.isDigit) ||
  (decide (x.length = 6) && (x.take 3).all Char.isUpper &&
    (x.drop 3).all Char.isDigit) ||
  (decide (x.length = 6) && (x.take 4).all Char.isUpper &&
    (x.drop 4).all Char.isDigit) ||
  (decide (x.length = 7) && (x.take 1).all Char.isUpper &&
    (x.drop 1).all Char.isDigit)

/-- The five characters the claim requires after the fixed vault prefix:
one uppercase letter, one space or hyphen, two digits, one uppercase letter,
and nothing else. -/
def claim_vault_tail_shape : Str → Bool
  | [c1, sep, d1, d2, c2] =>
    c1.isUpper && (decide (sep = ' ') || decide (sep = '-')) &&
      d1.isDigit && d2.isDigit && c2.isUpper
  | _ => false

/-- A vault location as the specification claim describes it: the fixed
prefix `S217-01` followed by exactly the five-character tail shape. -/
def claim_is_vault_location (x : Str) : Bool :=
  decide (x.take 7 = "S217-01".data) && claim_vault_tail_shape (x.drop 7)

/-- The tail the claim allows after the tape id: zero or more gap
characters, one of the literal markers, zero or more gap characters, and a
vault location ending the input.  The claim as stated reads the gaps as
spaces; the amended claim reads them as whitespace. -/
def claim_tail (gap : Char → Bool) (rest : Str) : Option Str :=
  let r1 := rest.dropWhile gap
  match (dropLit "(in vault)".data r1).orElse
      (fun _ => dropLit "(to vault)".data r1) with
  | none => none
  | some r2 =>
    let loc := r2.dropWhile gap
    if claim_is_vault_location loc then some loc else none

/-- The tape-identifier contract as the specification claim states it: trim
the input; if the whole of it is a tape id, return the id alone; if a tape
id (of length six or seven) is followed by a well-formed marker-and-vault
tail, return the id and the location; otherwise return nothing. -/
def claim_parse (gap : Char → Bool) (s : Str) : Option Str × Option Str :=
  let t := pyStrip s
  if claim_is_tape_id t then (some t, none)
  else if claim_is_tape_id (t.take 6) then
    match claim_tail gap (t.drop 6) with
    | some loc => (some (t.take 6), some loc)
    | none => (none, none)
  else if claim_is_tape_id (t.take 7) then
    match claim_tail gap (t.drop 7) with
    | some loc => (some (t.take 7), some loc)
    | none => (none, none)
  else (none, none)

/-- C2 counterexample: a tab between the tape id and the vault marker.  The
source pattern accepts any whitespace in the gaps, so the parser returns the
id and location, while the claim's grammar — which allows only spaces in the
gaps — rejects the input. -/
theorem tape_info_whitespace_counterexample :
    get_tape_info_parts "AAB963\t(in vault) S217-01A 11C".data =
      (some "AAB963".data, some "S217-01A 11C".data) ∧
    claim_parse (fun c => c = ' ') "AAB963\t(in vault) S217-01A 11C".data =
      (none, none) := by
  refine ⟨by decide, by decide⟩

/-- A shape attempt succeeds exactly when the input is long enough and the
first `upp + dig` characters have the letter-then-digit shape; it then
splits the input there. -/
theorem try_shape_eq (u d : Nat) (t : Str) :
    try_shape u d t =
      if (t.take (u + d)).length = u + d ∧
         ((t.take (u + d)).take u).all Char.isUpper = true ∧
         ((t.take (u + d)).drop u).all Char.isDigit = true
      then some (t.take (u + d), t.drop (u + d))
      else none := by
  have htk : (t.take (u + d)).take u = t.take u := by
    rw [List.take_take, Nat.min_eq_left (Nat.le_add_right u d)]
  have hdt : (t.take (u + d)).drop u = (t.drop u).take d := by
    rw [List.drop_take]
    congr 1
    omega
  have hlen : ((t.take (u + d)).length = u + d) ↔ u + d ≤ t.length := by
    rw [List.length_take]
    omega
  unfold try_shape
  cases h1 : dropClass Char.isUpper u t with
  | none =>
    rw [Option.none_bind]
    rw [if_neg]
    rintro ⟨hl, hup, hdig⟩
    have : dropClass Char.isUpper u t = some (t.drop u) :=
      dropClass_eq_some.mpr
        ⟨Nat.le_trans (Nat.le_add_right u d) (hlen.mp hl),
         by rw [htk] at hup; exact hup, rfl⟩
    rw [h1] at this
    exact Option.noConfusion this
  | some m1 =>
    obtain ⟨hu_le, hu_all, hm1⟩ := dropClass_eq_some.mp h1
    subst hm1
    rw [Option.some_bind]
    cases h2 : dropClass Char.isDigit d (t.drop u) with
    | none =>
      rw [if_neg]
      rintro ⟨hl, hup, hdig⟩
      have hd_le : d ≤ (t.drop u).length := by
        rw [List.length_drop]
        have := hlen.mp hl
        omega
      have : dropClass Char.isDigit d (t.drop u) =
          some ((t.drop u).drop d) :=
        dropClass_eq_some.mpr
          ⟨hd_le, by rw [hdt] at hdig; exact hdig, rfl⟩
      rw [h2] at this
      exact Option.noConfusion this
    | some rest =>
      obtain ⟨hd_le, hd_all, hrest⟩ := dropClass_eq_some.mp h2
      subst hrest
      rw [if_pos]
      · rw [List.drop_drop]
      · refine ⟨?_, ?_, ?_⟩
        · rw [hlen]
          rw [List.length_drop] at hd_le
          omega
        · rw [htk]
          exact hu_all
        · rw [hdt]
          exact hd_all

/-- The vault-location step of the source parser agrees with the claim's
vault-location predicate: it succeeds exactly on the twelve-character
location shapes, and then returns the whole candidate string. -/
theorem vault_loc_eq (r3 : Str) :
    (match dropLit "S217-01".data r3 with
     | some (c1 :: sep :: d1 :: d2 :: c2 :: restEnd) =>
       if c1.isUpper ∧ (sep = ' ' ∨ sep = '-') ∧ d1.isDigit ∧ d2.isDigit ∧
           c2.isUpper ∧ restEnd = [] then
         some ("S217-01".data ++ [c1, sep, d1, d2, c2])
       else none
     | _ => none) =
    (if claim_is_vault_location r3 then some r3 else none) := by
  cases hd : dropLit "S217-01".data r3 with
  | none =>
    have hfalse : claim_is_vault_location r3 = false := by
      unfold claim_is_vault_location
      have hne : r3.take 7 ≠ "S217-01".data := by
        intro he
        have hlen7 : 7 ≤ r3.length := by
          by_contra hlt
          push_neg at hlt
          have ht : r3.take 7 = r3 := List.take_of_length_le (by omega)
          rw [ht] at he
          have := congrArg List.length he
          simp at this
          omega
        have hsplit : r3 = "S217-01".data ++ r3.drop 7 := by
          conv_lhs => rw [← List.take_append_drop 7 r3]
          rw [he]
        have h2 : dropLit "S217-01".data r3 = some (r3.drop 7) :=
          dropLit_eq_some.mpr hsplit
        rw [hd] at h2
        exact Option.noConfusion h2
      simp [hne]
    rw [hfalse]
    simp
  | some tail =>
    have hr3 : r3 = "S217-01".data ++ tail := dropLit_eq_some.mp hd
    have htake : r3.take 7 = "S217-01".data := by
      rw [hr3]
      exact List.take_left' (by decide)
    have hdrop : r3.drop 7 = tail := by
      rw [hr3]
      exact List.drop_left' (by decide)
    have hclaim : claim_is_vault_location r3 = claim_vault_tail_shape tail := by
      simp [claim_is_vault_location, htake, hdrop]
    rw [hclaim]
    subst hr3
    clear hd htake hdrop hclaim
    rcases tail with _ | ⟨c1, _ | ⟨sep, _ | ⟨d1, _ | ⟨d2, _ | ⟨c2, rest⟩⟩⟩⟩⟩
    · simp [claim_vault_tail_shape]
    · simp [claim_vault_tail_shape]
    · simp [claim_vault_tail_shape]
    · simp [claim_vault_tail_shape]
    · simp [claim_vault_tail_shape]
    · cases rest with
      | nil =>
        by_cases hc : c1.isUpper ∧ (sep = ' ' ∨ sep = '-') ∧ d1.isDigit ∧
            d2.isDigit ∧ c2.isUpper ∧ ([] : Str) = []
        · obtain ⟨h1, h2, h3, h4, h5, _⟩ := hc
          have hstep : (match (some (c1 :: sep :: d1 :: d2 :: c2 :: ([] : Str)) :
              Option Str) with
            | some (c1 :: sep :: d1 :: d2 :: c2 :: restEnd) =>
              if c1.isUpper ∧ (sep = ' ' ∨ sep = '-') ∧ d1.isDigit ∧
                  d2.isDigit ∧ c2.isUpper ∧ restEnd = [] then
                some ("S217-01".data ++ [c1, sep, d1, d2, c2])
              else none
            | _ => none) =
              some ("S217-01".data ++ [c1, sep, d1, d2, c2]) := by
            exact if_pos ⟨h1, h2, h3, h4, h5, rfl⟩
          rw [hstep]
          have hb : claim_vault_tail_shape [c1, sep, d1, d2, c2] = true := by
            rcases h2 with h2 | h2 <;>
              simp [claim_vault_tail_shape, h1, h2, h3, h4, h5]
          rw [hb, if_pos rfl]
        · have hstep : (match (some (c1 :: sep :: d1 :: d2 :: c2 :: ([] : Str)) :
              Option Str) with
            | some (c1 :: sep :: d1 :: d2 :: c2 :: restEnd) =>
              if c1.isUpper ∧ (sep = ' ' ∨ sep = '-') ∧ d1.isDigit ∧
                  d2.isDigit ∧ c2.isUpper ∧ restEnd = [] then
                some ("S217-01".data ++ [c1, sep, d1, d2, c2])
              else none
            | _ => none) = none := by
            exact if_neg hc
          rw [hstep]
          have hb : claim_vault_tail_shape [c1, sep, d1, d2, c2] = false := by
            cases hbb : claim_vault_tail_shape [c1, sep, d1, d2, c2] with
            | false => rfl
            | true =>
              exfalso
              simp only [claim_vault_tail_shape, Bool.and_eq_true,
                Bool.or_eq_true, decide_eq_true_eq] at hbb
              obtain ⟨⟨⟨⟨h1, h2⟩, h3⟩, h4⟩, h5⟩ := hbb
              exact hc ⟨h1, h2, h3, h4, h5, rfl⟩
          rw [hb]
          simp
      | cons x xs =>
        have hconds : ¬ (c1.isUpper = true ∧ (sep = ' ' ∨ sep = '-') ∧
            d1.isDigit = true ∧ d2.isDigit = true ∧ c2.isUpper = true ∧
            x :: xs = ([] : Str)) := by
          rintro ⟨_, _, _, _, _, hx⟩
          exact List.noConfusion hx
        have hstep : (match (some (c1 :: sep :: d1 :: d2 :: c2 :: x :: xs) :
            Option Str) with
          | some (c1 :: sep :: d1 :: d2 :: c2 :: restEnd) =>
            if c1.isUpper ∧ (sep = ' ' ∨ sep = '-') ∧ d1.isDigit ∧
                d2.isDigit ∧ c2.isUpper ∧ restEnd = [] then
              some ("S217-01".data ++ [c1, sep, d1, d2, c2])
            else none
          | _ => none) = none := by
          exact if_neg hconds
        rw [hstep]
        have hb : claim_vault_tail_shape (c1 :: sep :: d1 :: d2 :: c2 :: x :: xs)
            = false := by
          simp [claim_vault_tail_shape]
        rw [hb]
        simp

/-- Characters cannot be both an ASCII digit and an ASCII uppercase
letter. -/
theorem digit_not_upper {c : Char} (hd : c.isDigit = true)
    (hu : c.isUpper = true) : False := by
  simp [Char.isDigit, Char.isUpper] at hd hu
  obtain ⟨h1, h2⟩ := hd
  obtain ⟨h3, h4⟩ := hu
  exact absurd (UInt32.le_trans h3 h2) (by decide)

/-- The six-digit shape attempt, with its condition in the claim's form. -/
theorem ts06 (t : Str) :
    try_shape 0 6 t =
      if (t.take 6).length = 6 ∧ (t.take 6).all Char.isDigit = true
      then some (t.take 6, t.drop 6) else none := by
  rw [try_shape_eq 0 6 t]
  norm_num

/-- The three-letter three-digit shape attempt, with its condition in the
claim's form. -/
theorem ts33 (t : Str) :
    try_shape 3 3 t =
      if (t.take 6).length = 6 ∧ ((t.take 6).take 3).all Char.isUpper = true ∧
         ((t.take 6).drop 3).all Char.isDigit = true
      then some (t.take 6, t.drop 6) else none := by
  rw [try_shape_eq 3 3 t]

/-- The four-letter two-digit shape attempt, with its condition in the
claim's form. -/
theorem ts42 (t : Str) :
    try_shape 4 2 t =
      if (t.take 6).length = 6 ∧ ((t.take 6).take 4).all Char.isUpper = true ∧
         ((t.take 6).drop 4).all Char.isDigit = true
      then some (t.take 6, t.drop 6) else none := by
  rw [try_shape_eq 4 2 t]

/-- The one-letter six-digit shape attempt, with its condition in the
claim's form. -/
theorem ts16 (t : Str) :
    try_shape 1 6 t =
      if (t.take 7).length = 7 ∧ ((t.take 7).take 1).all Char.isUpper = true ∧
         ((t.take 7).drop 1).all Char.isDigit = true
      then some (t.take 7, t.drop 7) else none := by
  rw [try_shape_eq 1 6 t]

/-- The source tape-id alternation splits off a claim-form tape id of length
six, else of length seven, else fails: the four regex alternatives together
recognize exactly the claim's four id shapes, and at most one alternative
can apply. -/
theorem tape_id_split_eq (t : Str) :
    tape_id_split t =
      if claim_is_tape_id (t.take 6) = true then some (t.take 6, t.drop 6)
      else if claim_is_tape_id (t.take 7) = true then some (t.take 7, t.drop 7)
      else none := by
  have hno7 : ¬ ((t.take 6).length = 7) := by
    rw [List.length_take]
    omega
  unfold tape_id_split
  rw [ts06, ts33, ts42, ts16]
  by_cases hA : (t.take 6).length = 6 ∧ (t.take 6).all Char.isDigit = true
  · rw [if_pos hA]
    have hc : claim_is_tape_id (t.take 6) = true := by
      simp [claim_is_tape_id, hA.1, hA.2]
    rw [hc, if_pos rfl]
    simp [Option.orElse]
  · rw [if_neg hA]
    by_cases hB : (t.take 6).length = 6 ∧
        ((t.take 6).take 3).all Char.isUpper = true ∧
        ((t.take 6).drop 3).all Char.isDigit = true
    · rw [if_pos hB]
      have hc : claim_is_tape_id (t.take 6) = true := by
        simp [claim_is_tape_id, hB.1, hB.2.1, hB.2.2]
      rw [hc, if_pos rfl]
      simp [Option.orElse]
    · rw [if_neg hB]
      by_cases hC : (t.take 6).length = 6 ∧
          ((t.take 6).take 4).all Char.isUpper = true ∧
          ((t.take 6).drop 4).all Char.isDigit = true
      · rw [if_pos hC]
        have hc : claim_is_tape_id (t.take 6) = true := by
          simp [claim_is_tape_id, hC.1, hC.2.1, hC.2.2]
        rw [hc, if_pos rfl]
        simp [Option.orElse]
      · rw [if_neg hC]
        have hc6 : claim_is_tape_id (t.take 6) = false := by
          cases hcc : claim_is_tape_id (t.take 6) with
          | false => rfl
          | true =>
            exfalso
            simp only [claim_is_tape_id, Bool.or_eq_true, Bool.and_eq_true,
              decide_eq_true_eq] at hcc
            rcases hcc with ((h | h) | h) | h
            · exact hA ⟨h.1, h.2⟩
            · exact hB ⟨h.1.1, h.1.2, h.2⟩
            · exact hC ⟨h.1.1, h.1.2, h.2⟩
            · exact hno7 h.1.1
        rw [hc6, if_neg Bool.false_ne_true]
        by_cases hD : (t.take 7).length = 7 ∧
            ((t.take 7).take 1).all Char.isUpper = true ∧
            ((t.take 7).drop 1).all Char.isDigit = true
        · rw [if_pos hD]
          have hc7 : claim_is_tape_id (t.take 7) = true := by
            unfold claim_is_tape_id
            rw [decide_eq_true hD.1, hD.2.1, hD.2.2]
            simp
          rw [hc7, if_pos rfl]
          simp [Option.orElse]
        · rw [if_neg hD]
          have hc7 : claim_is_tape_id (t.take 7) = false := by
            cases hcc : claim_is_tape_id (t.take 7) with
            | false => rfl
            | true =>
              exfalso
              simp only [claim_is_tape_id, Bool.or_eq_true, Bool.and_eq_true,
                decide_eq_true_eq] at hcc
              have hcollapse : (t.take 7).length = 6 → t.take 7 = t.take 6 := by
                intro h
                rw [List.length_take] at h
                have hlen : t.length = 6 := by omega
                rw [List.take_of_length_le (by omega),
                  List.take_of_length_le (by omega)]
              rcases hcc with ((h | h) | h) | h
              · have hcol := hcollapse h.1
                refine hA ⟨?_, ?_⟩
                · rw [← hcol]
                  exact h.1
                · rw [← hcol]
                  exact h.2
              · have hcol := hcollapse h.1.1
                refine hB ⟨?_, ?_, ?_⟩
                · rw [← hcol]
                  exact h.1.1
                · rw [← hcol]
                  exact h.1.2
                · rw [← hcol]
                  exact h.2
              · have hcol := hcollapse h.1.1
                refine hC ⟨?_, ?_, ?_⟩
                · rw [← hcol]
                  exact h.1.1
                · rw [← hcol]
                  exact h.1.2
                · rw [← hcol]
                  exact h.2
              · exact hD ⟨h.1.1, h.1.2, h.2⟩
          rw [hc7, if_neg Bool.false_ne_true]
          simp [Option.orElse]

/-- The source's marker-and-location tail matcher agrees with the claim's
tail grammar read with whitespace gaps. -/
theorem vault_tail_eq_claim_tail (r : Str) :
    vault_tail r = claim_tail pyIsSpace r := by
  cases h1 : dropLit "(in vault)".data (r.dropWhile pyIsSpace) with
  | some r2 =>
    simp only [vault_tail, claim_tail, h1, Option.orElse]
    exact vault_loc_eq (r2.dropWhile pyIsSpace)
  | none =>
    cases h2 : dropLit "(to vault)".data (r.dropWhile pyIsSpace) with
    | some r2 =>
      simp only [vault_tail, claim_tail, h1, h2, Option.orElse]
      exact vault_loc_eq (r2.dropWhile pyIsSpace)
    | none =>
      simp only [vault_tail, claim_tail, h1, h2, Option.orElse]

/-- A claim-form tape id has length six or seven. -/
theorem claim_id_length {x : Str} (h : claim_is_tape_id x = true) :
    x.length = 6 ∨ x.length = 7 := by
  simp only [claim_is_tape_id, Bool.or_eq_true, Bool.and_eq_true,
    decide_eq_true_eq] at h
  rcases h with ((h | h) | h) | h
  · exact Or.inl h.1
  · exact Or.inl h.1.1
  · exact Or.inl h.1.1
  · exact Or.inr h.1.1

/-- The body of the source parser, after trimming, agrees with the body of
the claim's contract read with whitespace gaps. -/
theorem parse_eq_aux (t : Str) :
    (match tape_id_split t with
     | some (tid, rest) =>
       if rest = [] then (some tid, none)
       else
         match vault_tail rest with
         | some loc => (some tid, some loc)
         | none => (none, none)
     | none => (none, none)) =
    (if claim_is_tape_id t then ((some t : Option Str), (none : Option Str))
     else if claim_is_tape_id (t.take 6) then
       match claim_tail pyIsSpace (t.drop 6) with
       | some loc => (some (t.take 6), some loc)
       | none => (none, none)
     else if claim_is_tape_id (t.take 7) then
       match claim_tail pyIsSpace (t.drop 7) with
       | some loc => (some (t.take 7), some loc)
       | none => (none, none)
     else (none, none)) := by
  rw [tape_id_split_eq t]
  by_cases hc6 : claim_is_tape_id (t.take 6) = true
  · rw [if_pos hc6, if_pos hc6]
    try dsimp only
    by_cases hnil : t.drop 6 = []
    · rw [if_pos hnil]
      have hlen : t.length ≤ 6 := List.drop_eq_nil_iff.mp hnil
      have ht6 : t.take 6 = t := List.take_of_length_le hlen
      have hct : claim_is_tape_id t = true := by
        rw [← ht6]
        exact hc6
      rw [hct, if_pos rfl, ht6]
    · rw [if_neg hnil]
      have hlen : 6 < t.length := by
        by_contra hle
        push_neg at hle
        exact hnil (List.drop_eq_nil_iff.mpr hle)
      have hct : claim_is_tape_id t = false := by
        cases hcc : claim_is_tape_id t with
        | false => rfl
        | true =>
          exfalso
          rcases claim_id_length hcc with h6 | h7
          · omega
          · -- t has length seven: its first two characters conflict in
            -- character class with the six-character shape of hc6
            simp only [claim_is_tape_id, Bool.or_eq_true, Bool.and_eq_true,
              decide_eq_true_eq] at hcc hc6
            rcases hcc with ((h | h) | h) | h
            · omega
            · omega
            · omega
            · obtain ⟨⟨hl7, hup⟩, hdig⟩ := h
              rcases t with _ | ⟨c0, _ | ⟨c1, ts⟩⟩
              · simp at hl7
              · simp at hl7
              · simp only [List.take_succ_cons, List.take_zero,
                  List.all_cons, List.all_nil, Bool.and_eq_true,
                  List.drop_succ_cons, List.drop_zero] at hup hdig
                have hc0u : c0.isUpper = true := hup.1
                have hc1d : c1.isDigit = true := hdig.1
                rcases hc6 with ((h | h) | h) | h
                · have hc0d : c0.isDigit = true := by
                    have h2 := h.2
                    simp at h2
                    exact h2.1
                  exact digit_not_upper hc0d hc0u
                · have hc1u : c1.isUpper = true := by
                    have h2 := h.1.2
                    simp at h2
                    exact h2.2.1
                  exact digit_not_upper hc1d hc1u
                · have hc1u : c1.isUpper = true := by
                    have h2 := h.1.2
                    simp at h2
                    exact h2.2.1
                  exact digit_not_upper hc1d hc1u
                · have hbad := h.1.1
                  rw [List.length_take] at hbad
                  omega
      rw [hct, if_neg Bool.false_ne_true]
      rw [vault_tail_eq_claim_tail]
  · rw [if_neg hc6]
    by_cases hc7 : claim_is_tape_id (t.take 7) = true
    · rw [if_pos hc7, if_pos hc7]
      try dsimp only
      by_cases hnil : t.drop 7 = []
      · rw [if_pos hnil]
        have hlen : t.length ≤ 7 := List.drop_eq_nil_iff.mp hnil
        have ht7 : t.take 7 = t := List.take_of_length_le hlen
        have hct : claim_is_tape_id t = true := by
          rw [← ht7]
          exact hc7
        rw [hct, if_pos rfl, ht7]
      · rw [if_neg hnil]
        have hlen : 7 < t.length := by
          by_contra hle
          push_neg at hle
          exact hnil (List.drop_eq_nil_iff.mpr hle)
        have hct : claim_is_tape_id t = false := by
          cases hcc : claim_is_tape_id t with
          | false => rfl
          | true =>
            exfalso
            rcases claim_id_length hcc with h6 | h7 <;> omega
        rw [hct, if_neg Bool.false_ne_true, if_neg hc6]
        rw [vault_tail_eq_claim_tail]
    · rw [if_neg hc7]
      have hct : claim_is_tape_id t = false := by
        cases hcc : claim_is_tape_id t with
        | false => rfl
        | true =>
          exfalso
          rcases claim_id_length hcc with h6 | h7
          · exact hc6 (by rw [List.take_of_length_le (by omega)]; exact hcc)
          · exact hc7 (by rw [List.take_of_length_le (by omega)]; exact hcc)
      rw [hct, if_neg Bool.false_ne_true, if_neg hc6, if_neg hc7]

/-- C2 amended: for every input string, `get_tape_info_parts` returns
exactly what the claim's contract specifies once the gaps around the vault
marker are read as runs of whitespace characters rather than spaces only:
the trimmed input that is exactly a tape id of one of the four shapes gives
the id alone, a tape id followed by whitespace, a vault marker, whitespace
and a vault location ending the input gives the id and the location, and
everything else gives nothing; in particular every member of the claim's
valid set parses to a non-null tape id and every member of its invalid set
is rejected outright. -/
theorem get_tape_info_parts_spec :
    (∀ s : Str, get_tape_info_parts s = claim_parse pyIsSpace s) ∧
    ((get_tape_info_parts "820001".data).1 ≠ none ∧
     (get_tape_info_parts "AAB963".data).1 ≠ none ∧
     (get_tape_info_parts "000027 (in vault) S217-01A 11C".data).1 ≠ none ∧
     (get_tape_info_parts "CLNU00 (in vault) S217-01A 11A".data).1 ≠ none ∧
     (get_tape_info_parts "M265154 (to vault) S217-01A-13D".data).1 ≠ none) ∧
    (get_tape_info_parts "000028 & AAB967".data = (none, none) ∧
     get_tape_info_parts
       "AAC018- LTO Corrupted- Will not mount (4/25/2018)".data =
       (none, none) ∧
     get_tape_info_parts "CLNU02/AAC062 (in vault) S217-01A 11A".data =
       (none, none) ∧
     get_tape_info_parts "Not on LTO AAB969".data = (none, none) ∧
     get_tape_info_parts "M258145 Part 01 of 03 (to vault) S217-01A-13C".data =
       (none, none)) := by
  refine ⟨fun s => parse_eq_aux (pyStrip s), by decide, by decide⟩
